import Mathlib

/-!
Verification of the type-marshaling and statement-execution core of a
database-client binding (pyodbc), against its natural-language spec.

The repository ships the exercised behavior only through its test suite
(`tests3/sqlservertests.py`); the native core (TypeMarshaler,
ParameterBinder, ResultSetReader, StatementSession, ConnectionSession)
is not part of the source tree.  The definitions below therefore model
those components from the spec, and each such definition's doc comment
says so.  Where the test suite pins a concrete behavior (fencepost
sizes, rowcount sentinels, message lists) the model follows the tests.
-/

set_option autoImplicit false

namespace Pyodbc

/-- Modelled from the spec: the error taxonomy of section 7
(`TypeRejected`, `NumericOverflow`, `Overflow`, `Truncation`,
`DataError`, `IntegrityViolation`, `NoActiveResult`, `SessionClosed`).
The native core raising these is missing from the source tree. -/
inductive Err where
  | Overflow
  | TypeRejected
  | NumericOverflow
  | Truncation
  | DataError
  | IntegrityViolation
  | NoActiveResult
  | SessionClosed
  deriving DecidableEq, Repr

/-- Modelled from the spec: a host floating value.  Finite values carry
an exact (mantissa, exponent) pair; the three non-finite values the
spec singles out (`+Infinity`, `-Infinity`, `NaN`) are explicit
constructors.  Only the finite/non-finite split matters to the
marshaling contract, so no binary rounding is modelled. -/
inductive HFloat where
  | finite (mant : Int) (exp : Int)
  | posInf
  | negInf
  | nan
  deriving DecidableEq, Repr

/-- Modelled from the spec: an exact base-10 decimal value with
explicit digits (integer part and fractional part) and a sign; the
spec requires decimals never be approximated via binary floating
point on the marshaling path. -/
structure DecimalV where
  neg : Bool
  intDigits : List Nat
  fracDigits : List Nat
  deriving DecidableEq, Repr

/-- Modelled from the spec: the native SQL types the marshaling core
supports that the claims exercise (64-bit integer, float, boolean bit,
narrow/wide character, binary, exact decimal with declared precision
and scale). -/
inductive SqlType where
  | bigintT
  | floatT
  | bitT
  | varcharT
  | nvarcharT
  | varbinaryT
  | decimalT (p s : Nat)
  deriving DecidableEq, Repr

/-- Modelled from the spec: a host value as held by the binding
(typed scalar or NULL).  Character data is a list of code points,
binary data a list of bytes; an empty list is distinct from `null`. -/
inductive Value where
  | null
  | intV (n : Int)
  | floatV (f : HFloat)
  | boolV (b : Bool)
  | strV (cs : List Nat)
  | binV (bs : List Nat)
  | decV (d : DecimalV)
  deriving DecidableEq, Repr

/-- Modelled from the spec: a typed, length-prefixed native buffer.
`ind` is the length/indicator cell: `none` marks NULL, `some n` a known
payload length of `n` cells — so embedded zero bytes in the payload are
plain data, never string terminators. -/
structure Buffer where
  ind : Option Nat
  payload : List Nat
  deriving DecidableEq, Repr

/-- Little-endian base-256 serialization of a natural into `k` bytes. -/
def toBytesLE : Nat → Nat → List Nat
  | 0, _ => []
  | k + 1, n => n % 256 :: toBytesLE k (n / 256)

/-- Reassemble a natural from little-endian base-256 bytes. -/
def fromBytesLE : List Nat → Nat
  | [] => 0
  | b :: bs => b + 256 * fromBytesLE bs

theorem fromBytesLE_toBytesLE (k n : Nat) :
    fromBytesLE (toBytesLE k n) = n % 256 ^ k := by
  induction k generalizing n with
  | zero => simp [toBytesLE, fromBytesLE, Nat.mod_one]
  | succ k ih =>
      simp only [toBytesLE, fromBytesLE, ih]
      rw [pow_succ', Nat.mod_mul]

/-- Modelled from the spec: the chunked reader used for long
variable-length values — the payload is pulled in bounded chunks of
`c + 1` cells and concatenated, rather than materialized in one read,
which is where the fencepost lengths exercise buffer-growth
boundaries. -/
def readChunked (c : Nat) (rem : List Nat) : List Nat :=
  if rem = [] then []
  else rem.take (c + 1) ++ readChunked c (rem.drop (c + 1))
termination_by rem.length
decreasing_by
  simp only [List.length_drop]
  cases rem with
  | nil => simp_all
  | cons x xs => simp; omega

theorem readChunked_eq_of_le (c n : Nat) :
    ∀ l : List Nat, l.length ≤ n → readChunked c l = l := by
  induction n with
  | zero =>
      intro l h
      have : l = [] := List.length_eq_zero.mp (Nat.le_zero.mp h)
      rw [readChunked, if_pos this, this]
  | succ n ih =>
      intro l h
      rw [readChunked]
      by_cases hnil : l = []
      · rw [if_pos hnil, hnil]
      · rw [if_neg hnil]
        have hpos : 0 < l.length := List.length_pos.mpr hnil
        have hd : (l.drop (c + 1)).length = l.length - (c + 1) :=
          List.length_drop _ _
        rw [ih (l.drop (c + 1)) (by omega)]
        exact List.take_append_drop _ _

theorem readChunked_eq (c : Nat) (l : List Nat) : readChunked c l = l :=
  readChunked_eq_of_le c l.length l le_rfl

/-- The chunk size (in cells) the model reads long values with; the
test fenceposts (1023/1024, 2047/2048, 4095/4096/4097) straddle
multiples of 1024. -/
def chunkCells : Nat := 1023

/-- Modelled from the spec: the number of decimal digits a mantissa
occupies, used to check declared precision. -/
def serializeDecimal (d : DecimalV) : List Nat :=
  (if d.neg then 1 else 0) :: d.intDigits.length :: (d.intDigits ++ d.fracDigits)

/-- Modelled from the spec (TypeMarshaler): `encode(value, targetType)
-> buffer`, pure, failing before any native call with `Overflow` for
out-of-range 64-bit integers, `TypeRejected` for non-finite floats and
host/target type mismatches, and `NumericOverflow` for decimals
exceeding declared precision/scale. -/
def encode (v : Value) (ty : SqlType) : Except Err Buffer :=
  match v, ty with
  | .null, _ => .ok ⟨none, []⟩
  | .intV n, .bigintT =>
      if n < -(2 ^ 63) ∨ 2 ^ 63 - 1 < n then .error .Overflow
      else .ok ⟨some 8, toBytesLE 8 (n % 2 ^ 64).toNat⟩
  | .floatV (.finite m e), .floatT =>
      .ok ⟨some 4, [if m < 0 then 1 else 0, (if m < 0 then -m else m).toNat,
        if e < 0 then 1 else 0, (if e < 0 then -e else e).toNat]⟩
  | .floatV .posInf, .floatT => .error .TypeRejected
  | .floatV .negInf, .floatT => .error .TypeRejected
  | .floatV .nan, .floatT => .error .TypeRejected
  | .boolV b, .bitT => .ok ⟨some 1, [if b then 1 else 0]⟩
  | .strV cs, .varcharT => .ok ⟨some cs.length, cs⟩
  | .strV cs, .nvarcharT => .ok ⟨some cs.length, cs⟩
  | .binV bs, .varbinaryT => .ok ⟨some bs.length, bs⟩
  | .decV d, .decimalT p s =>
      if d.intDigits.length ≤ p - s ∧ d.fracDigits.length ≤ s then
        .ok ⟨some (serializeDecimal d).length, serializeDecimal d⟩
      else .error .NumericOverflow
  | _, _ => .error .TypeRejected

/-- Modelled from the spec (TypeMarshaler): `decode(buffer, sourceType)
-> value`.  A `none` indicator decodes to NULL for every type; a known
length reads exactly that many payload cells (through the chunked
long-value reader for variable-length types), so embedded zero cells
survive. -/
def decode (ty : SqlType) (buf : Buffer) : Value :=
  match buf.ind with
  | none => .null
  | some len =>
      match ty with
      | .bigintT =>
          let u := fromBytesLE (buf.payload.take len)
          .intV (if 2 ^ 63 ≤ u then (u : Int) - 2 ^ 64 else (u : Int))
      | .floatT =>
          match buf.payload with
          | [sg, ma, se, ea] =>
              .floatV (.finite (if sg = 1 then -(ma : Int) else (ma : Int))
                (if se = 1 then -(ea : Int) else (ea : Int)))
          | _ => .floatV (.finite 0 0)
      | .bitT => .boolV (buf.payload.headD 0 ≠ 0)
      | .varcharT => .strV (readChunked chunkCells (buf.payload.take len))
      | .nvarcharT => .strV (readChunked chunkCells (buf.payload.take len))
      | .varbinaryT => .binV (readChunked chunkCells (buf.payload.take len))
      | .decimalT _ _ =>
          match buf.payload with
          | sg :: ilen :: digits =>
              .decV ⟨sg = 1, digits.take ilen, digits.drop ilen⟩
          | _ => .decV ⟨false, [], []⟩

/-- Modelled from the spec: inserting a value through a bound parameter
and fetching it back — encode into the bound buffer, then decode the
fetched buffer (no output converter registered). -/
def insertFetch (ty : SqlType) (v : Value) : Except Err Value :=
  (encode v ty).map (decode ty)

/-- Embedded from the source (`_TESTSTR` in sqlservertests.py), as the
list of code points of `'0123456789-abcdefghijklmnopqrstuvwxyz-'`. -/
def TESTSTR : List Nat := "0123456789-abcdefghijklmnopqrstuvwxyz-".toList.map Char.toNat

/-- Embedded from the source (`_generate_test_string` in
sqlservertests.py): a recognizable string of `n` characters built by
repeating `TESTSTR` as necessary and truncating. -/
def generate_test_string (n : Nat) : List Nat :=
  if n ≤ TESTSTR.length then TESTSTR.take n
  else
    let c := (n + TESTSTR.length - 1) / TESTSTR.length
    (List.flatten (List.replicate c TESTSTR)).take n

/-- Embedded from the source (`SMALL_FENCEPOST_SIZES`). -/
def SMALL_FENCEPOST_SIZES : List Nat :=
  [0, 1, 255, 256, 510, 511, 512, 1023, 1024, 2047, 2048, 4000]

/-- Embedded from the source (`LARGE_FENCEPOST_SIZES`). -/
def LARGE_FENCEPOST_SIZES : List Nat := [4095, 4096, 4097, 10 * 1024, 20 * 1024]

theorem toBytesLE_length (k n : Nat) : (toBytesLE k n).length = k := by
  induction k generalizing n with
  | zero => rfl
  | succ k ih => simp [toBytesLE, ih]

theorem take_toBytesLE (k n : Nat) : (toBytesLE k n).take k = toBytesLE k n :=
  List.take_of_length_le (le_of_eq (toBytesLE_length k n))

/-- For every value the marshaler accepts for a type, decoding the
encoded buffer recovers the value exactly: same host type, same
length, embedded zero cells and the NULL indicator preserved. -/
theorem decode_encode (ty : SqlType) (v : Value) (buf : Buffer)
    (h : encode v ty = .ok buf) : decode ty buf = v := by
  cases v with
  | null =>
      simp only [encode] at h
      cases h
      rfl
  | intV n =>
      cases ty <;> try exact Except.noConfusion h
      simp only [encode] at h
      split at h
      · exact Except.noConfusion h
      · cases h
        rename_i hrange
        simp only [decode, take_toBytesLE, fromBytesLE_toBytesLE]
        have h256 : (256 : Nat) ^ 8 = 2 ^ 64 := by norm_num
        rw [h256]
        congr 1
        split <;> omega
  | floatV f =>
      cases f with
      | finite m e =>
          cases ty <;> try exact Except.noConfusion h
          simp only [encode] at h
          cases h
          by_cases hm : m < 0 <;> by_cases he : e < 0 <;>
            simp [decode, hm, he] <;> omega
      | posInf => cases ty <;> exact Except.noConfusion h
      | negInf => cases ty <;> exact Except.noConfusion h
      | nan => cases ty <;> exact Except.noConfusion h
  | boolV b =>
      cases ty <;> try exact Except.noConfusion h
      simp only [encode] at h
      cases h
      cases b <;> simp [decode]
  | strV cs =>
      cases ty <;> try exact Except.noConfusion h
      all_goals
        simp only [encode] at h
        cases h
        simp only [decode, List.take_length, readChunked_eq]
  | binV bs =>
      cases ty <;> try exact Except.noConfusion h
      simp only [encode] at h
      cases h
      simp only [decode, List.take_length, readChunked_eq]
  | decV d =>
      cases ty <;> try exact Except.noConfusion h
      obtain ⟨neg, intDs, fracDs⟩ := d
      simp only [encode] at h
      split at h
      · cases h
        cases neg <;>
          simp [decode, serializeDecimal, List.take_left, List.drop_left]
      · exact Except.noConfusion h

theorem insertFetch_eq_of_encode (ty : SqlType) (v : Value) (buf : Buffer)
    (h : encode v ty = .ok buf) : insertFetch ty v = .ok v := by
  unfold insertFetch
  rw [h]
  simp [Except.map, decode_encode ty v buf h]

/-- C1: for every supported SQL type and every value the marshaler
accepts — every length (so in particular every fencepost length 0, 1,
255, 256, 511, 512, 1023, 1024, 2047, 2048, 4000, 4095, 4096, 4097 and
larger multi-kilobyte sizes), the NULL value, the empty string/binary
value, and values with embedded NUL cells — inserting through a bound
parameter and fetching back returns a value equal to the original, with
the same length and host type: `decode(encode(v)) == v`. -/
theorem insertFetch_roundtrip (ty : SqlType) (v : Value) (buf : Buffer)
    (h : encode v ty = .ok buf) : insertFetch ty v = .ok v :=
  insertFetch_eq_of_encode ty v buf h

/-- C1 witness: a varchar value at fencepost length 4097 (built by the
source's test-string generator), a binary value with embedded NUL
bytes, the empty wide string, and NULL all round-trip concretely. -/
theorem insertFetch_roundtrip_witness :
    (generate_test_string 4097).length = 4097 ∧
    insertFetch .varcharT (.strV (generate_test_string 4097)) =
      .ok (.strV (generate_test_string 4097)) ∧
    insertFetch .varbinaryT (.binV [0, 65, 0, 66]) = .ok (.binV [0, 65, 0, 66]) ∧
    insertFetch .nvarcharT (.strV []) = .ok (.strV []) ∧
    insertFetch .bigintT .null = .ok .null := by
  refine ⟨?_, ?_, ?_, ?_, ?_⟩
  · have h38 : TESTSTR.length = 38 := rfl
    simp [generate_test_string, h38, List.length_flatten, List.map_replicate,
      List.sum_replicate]
  · exact insertFetch_roundtrip .varcharT (.strV (generate_test_string 4097))
      ⟨some (generate_test_string 4097).length, generate_test_string 4097⟩ rfl
  · exact insertFetch_roundtrip .varbinaryT (.binV [0, 65, 0, 66])
      ⟨some 4, [0, 65, 0, 66]⟩ rfl
  · exact insertFetch_roundtrip .nvarcharT (.strV []) ⟨some 0, []⟩ rfl
  · exact insertFetch_roundtrip .bigintT .null ⟨none, []⟩ rfl

/-- Embedded from the source (`_decimal` in sqlservertests.py): the
decimal value using the maximum digit string at precision `p` and
scale `s` — `p - s` nines before the point and `s` nines after,
optionally negative. -/
def maxDecimalValue (p s : Nat) (negative : Bool) : DecimalV :=
  ⟨negative, List.replicate (p - s) 9, List.replicate s 9⟩

/-- C4: for every decimal column with precision `p` (up to 38 and
beyond) and scale `s ≤ p`, the maximum digit string at that precision
and scale, positive or negative, round-trips exactly through insert and
fetch: the fetched decimal equals the inserted one digit for digit,
with no binary-floating-point approximation on the path. -/
theorem decimal_max_roundtrip (p s : Nat) (negative : Bool) (_hs : s ≤ p) :
    insertFetch (.decimalT p s) (.decV (maxDecimalValue p s negative)) =
      .ok (.decV (maxDecimalValue p s negative)) := by
  apply insertFetch_eq_of_encode _ _
    ⟨some (serializeDecimal (maxDecimalValue p s negative)).length,
      serializeDecimal (maxDecimalValue p s negative)⟩
  simp [encode, maxDecimalValue]

/-- C4 witness: precision 38, scale 38, negative — the extreme case the
test suite exercises — round-trips concretely. -/
theorem decimal_max_roundtrip_witness :
    (38 : Nat) ≤ 38 ∧
    insertFetch (.decimalT 38 38) (.decV (maxDecimalValue 38 38 true)) =
      .ok (.decV (maxDecimalValue 38 38 true)) :=
  ⟨le_rfl, decimal_max_roundtrip 38 38 true le_rfl⟩

/-- Modelled from the spec: a single-column target table of the engine,
holding the buffers the engine has stored. -/
structure Table where
  rows : List Buffer
  deriving DecidableEq, Repr

/-- Modelled from the spec (ParameterBinder + StatementSession): one
parameter-bound insert execution against a table.  Parameters are
encoded first; an encode failure surfaces before any native call is
issued, so the third component (native calls issued) is `0` and the
table is returned untouched. -/
def execInsert (t : Table) (ty : SqlType) (v : Value) :
    Except Err Unit × Table × Nat :=
  match encode v ty with
  | .error e => (.error e, t, 0)
  | .ok buf => (.ok (), ⟨t.rows ++ [buf]⟩, 1)

/-- Modelled from the spec: fetching every row of a table back to the
host (`select * from t` then `fetchall`), no converters registered. -/
def selectAll (t : Table) (ty : SqlType) : List Value :=
  t.rows.map (decode ty)

/-- C2: a host integer exceeding the 64-bit range bound to a bigint
column is rejected at encode time with `Overflow`; a non-finite float
(`+Infinity`, `-Infinity`, `NaN`) bound to a float column is rejected
with `TypeRejected`; in both cases no native call is issued (count 0)
and prior state is untouched, so a subsequent select returns exactly
the rows that were there before the failed call. -/
theorem encode_failure_leaves_state (t : Table) (n : Int) (f : HFloat)
    (hn : n < -(2 ^ 63) ∨ 2 ^ 63 - 1 < n)
    (hf : f = .posInf ∨ f = .negInf ∨ f = .nan) :
    execInsert t .bigintT (.intV n) = (.error .Overflow, t, 0) ∧
    execInsert t .floatT (.floatV f) = (.error .TypeRejected, t, 0) ∧
    selectAll (execInsert t .bigintT (.intV n)).2.1 .bigintT =
      selectAll t .bigintT ∧
    selectAll (execInsert t .floatT (.floatV f)).2.1 .floatT =
      selectAll t .floatT := by
  have hbig : execInsert t .bigintT (.intV n) = (.error .Overflow, t, 0) := by
    simp only [execInsert, encode, if_pos hn]
  have hflt : execInsert t .floatT (.floatV f) = (.error .TypeRejected, t, 0) := by
    rcases hf with h | h | h <;> subst h <;> rfl
  exact ⟨hbig, hflt, by rw [hbig], by rw [hflt]⟩

/-- C2 witness: the test suite's 37-digit integer and `+Infinity`
against an empty table. -/
theorem encode_failure_leaves_state_witness :
    ((9999999999999999999999999999999999999 : Int) < -(2 ^ 63) ∨
      2 ^ 63 - 1 < (9999999999999999999999999999999999999 : Int)) ∧
    execInsert ⟨[]⟩ .bigintT (.intV 9999999999999999999999999999999999999) =
      (.error .Overflow, ⟨[]⟩, 0) ∧
    execInsert ⟨[]⟩ .floatT (.floatV .posInf) = (.error .TypeRejected, ⟨[]⟩, 0) := by
  have hn : (9999999999999999999999999999999999999 : Int) < -(2 ^ 63) ∨
      2 ^ 63 - 1 < (9999999999999999999999999999999999999 : Int) := by
    right; norm_num
  have h := encode_failure_leaves_state ⟨[]⟩ 9999999999999999999999999999999999999
    .posInf hn (Or.inl rfl)
  exact ⟨hn, h.1, h.2.1⟩

/-- Modelled from the spec (DiagnosticCollector): a diagnostic record
as surfaced on the messages list — a state/native-code prefix and the
message text. -/
structure Diag where
  state : String
  msg : String
  deriving DecidableEq, Repr

/-- A fetched row: an ordered sequence of typed values. -/
abbrev Row := List Value

/-- Modelled from the spec (ResultSetReader): one statement step as the
engine reports it when it becomes current — the diagnostics drained at
that step boundary, and the rows of its result set (`none` when the
step produced no row-returning result, as for a lone PRINT batch). -/
structure StepResult where
  diags : List Diag
  rows : Option (List Row)
  deriving DecidableEq, Repr

/-- Modelled from the spec: the statement forms the claims exercise,
abstracted by the engine response they elicit (the core never
interprets SQL text). -/
inductive Stmt where
  | selectQ (steps : List StepResult)
  | insertQ
  | deleteQ (n : Nat)
  | ddlQ
  deriving DecidableEq, Repr

/-- Modelled from the spec (ConnectionSession/backend): the per-backend
row-count signal reported for a DDL statement (`0` on FreeTDS, `-1` on
the Microsoft drivers). -/
structure Backend where
  ddlDefault : Int
  deriving DecidableEq, Repr

/-- Modelled from the spec: what the native layer hands back for one
execute call — the ordered statement steps and the row-count signal
(`-1` is the engine's "unknown" sentinel after a row-returning
query; a delete reports the number of rows removed; an insert reports
`1`; DDL reports the backend's DDL default). -/
def runStmt (b : Backend) : Stmt → List StepResult × Int
  | .selectQ steps => (steps, -1)
  | .insertQ => ([⟨[], none⟩], 1)
  | .deleteQ n => ([⟨[], none⟩], (n : Int))
  | .ddlQ => ([⟨[], none⟩], b.ddlDefault)

/-- Modelled from the spec (StatementSession, section 4.4): cursor
state.  `closed` is the terminal `Closed` state; `pending` holds the
result-set steps not yet current; `current` the rows remaining in the
current result set (`none` = no active result); `messages` the
diagnostics drained at the last step boundary (`none` before the first
execute, never the empty list); `rowcount` the last reported row-count
signal (default `-1`); `nativeCalls` counts the calls issued to the
native layer, instrumenting "raised locally, no native call". -/
structure Cursor where
  closed : Bool
  pending : List StepResult
  current : Option (List Row)
  messages : Option (List Diag)
  rowcount : Int
  nativeCalls : Nat
  deriving DecidableEq, Repr

/-- Modelled from the spec: a freshly created cursor — open, no active
result, `messages` not yet a list, rowcount at the `-1` default. -/
def newCursor : Cursor := ⟨false, [], none, none, -1, 0⟩

/-- Modelled from the spec: execute resets the session (rowcount,
description, messages cleared) and makes the first statement step
current; on a closed session it fails locally with `SessionClosed`
and issues no native call. -/
def Cursor.execute (b : Backend) (s : Stmt) (c : Cursor) :
    Except Err Unit × Cursor :=
  if c.closed then (.error .SessionClosed, c)
  else
    let r := runStmt b s
    match r.1 with
    | [] => (.ok (), { c with
        pending := []
        current := none
        messages := some []
        rowcount := r.2
        nativeCalls := c.nativeCalls + 1 })
    | st :: rest => (.ok (), { c with
        pending := rest
        current := st.rows
        messages := some st.diags
        rowcount := r.2
        nativeCalls := c.nativeCalls + 1 })

/-- Modelled from the spec: advance to the next result set, draining
that boundary's diagnostics; past the last result set it yields a
definitive `false`, clears the diagnostic list to empty and leaves no
active result — a state this operation maps to itself. -/
def Cursor.nextset (c : Cursor) : Except Err Bool × Cursor :=
  if c.closed then (.error .SessionClosed, c)
  else match c.pending with
    | [] => (.ok false, { c with
        current := none
        messages := some [] })
    | st :: rest => (.ok true, { c with
        pending := rest
        current := st.rows
        messages := some st.diags
        nativeCalls := c.nativeCalls + 1 })

/-- Modelled from the spec: fetch the next row of the current result
set (`none` once exhausted); with no active result it fails locally
with `NoActiveResult`. -/
def Cursor.fetchone (c : Cursor) : Except Err (Option Row) × Cursor :=
  if c.closed then (.error .SessionClosed, c)
  else match c.current with
    | none => (.error .NoActiveResult, c)
    | some [] => (.ok none, { c with nativeCalls := c.nativeCalls + 1 })
    | some (r :: rs) => (.ok (some r), { c with
        current := some rs
        nativeCalls := c.nativeCalls + 1 })

/-- Modelled from the spec: fetch every remaining row of the current
result set; with no active result it fails with `NoActiveResult`. -/
def Cursor.fetchall (c : Cursor) : Except Err (List Row) × Cursor :=
  if c.closed then (.error .SessionClosed, c)
  else match c.current with
    | none => (.error .NoActiveResult, c)
    | some rs => (.ok rs, { c with
        current := some []
        nativeCalls := c.nativeCalls + 1 })

/-- Modelled from the spec: skip the next `n` rows of the current
result set without returning them. -/
def Cursor.skip (n : Nat) (c : Cursor) : Except Err Unit × Cursor :=
  if c.closed then (.error .SessionClosed, c)
  else match c.current with
    | none => (.error .NoActiveResult, c)
    | some rs => (.ok (), { c with
        current := some (rs.drop n)
        nativeCalls := c.nativeCalls + 1 })

/-- Modelled from the spec: closing the owning connection releases the
native handle and forces every statement session into the terminal
`Closed` state. -/
def closeConnection (c : Cursor) : Cursor := { c with closed := true }

theorem head?_drop_eq (l : List Row) (n : Nat) : (l.drop n).head? = l[n]? := by
  induction n generalizing l with
  | zero => cases l <;> simp
  | succ n ih => cases l <;> simp [ih]

/-- C3: on an open cursor whose result sets are exhausted, the
result-set advance returns `false` and leaves an empty messages list;
a subsequent fetch fails with `NoActiveResult`; and advancing again
returns `false` with the state unchanged — an idempotent terminal
state, so every further advance also returns `false`. -/
theorem nextset_exhausted_terminal (c : Cursor)
    (ho : c.closed = false) (hp : c.pending = []) :
    (c.nextset).1 = .ok false ∧
    (c.nextset).2.messages = some [] ∧
    ((c.nextset).2.fetchone).1 = .error .NoActiveResult ∧
    ((c.nextset).2.nextset).1 = .ok false ∧
    ((c.nextset).2.nextset).2 = (c.nextset).2 := by
  obtain ⟨cl, pe, cu, me, rc, nc⟩ := c
  simp only at ho hp
  subst ho
  subst hp
  exact ⟨rfl, rfl, rfl, rfl, rfl⟩

/-- C3 witness: a freshly created cursor (open, no pending result
sets) exhibits the terminal behavior concretely. -/
theorem nextset_exhausted_terminal_witness :
    (newCursor.nextset).1 = .ok false ∧
    (newCursor.nextset).2.messages = some [] ∧
    ((newCursor.nextset).2.fetchone).1 = .error .NoActiveResult ∧
    ((newCursor.nextset).2.nextset).1 = .ok false ∧
    ((newCursor.nextset).2.nextset).2 = (newCursor.nextset).2 :=
  nextset_exhausted_terminal newCursor rfl rfl

/-- C6: after the owning connection is closed, the statement session is
in the terminal `Closed` state: execute, fetchone, fetchall, skip and
nextset all fail with `SessionClosed` raised locally, the state (in
particular the native-call count) is untouched — no native call is
attempted on the released handle — and the session stays closed. -/
theorem closed_session_terminal (b : Backend) (s : Stmt) (n : Nat) (c : Cursor) :
    (closeConnection c).execute b s = (.error .SessionClosed, closeConnection c) ∧
    (closeConnection c).fetchone = (.error .SessionClosed, closeConnection c) ∧
    (closeConnection c).fetchall = (.error .SessionClosed, closeConnection c) ∧
    (closeConnection c).skip n = (.error .SessionClosed, closeConnection c) ∧
    (closeConnection c).nextset = (.error .SessionClosed, closeConnection c) ∧
    (closeConnection c).closed = true ∧
    ((closeConnection c).execute b s).2.nativeCalls = c.nativeCalls := by
  obtain ⟨cl, pe, cu, me, rc, nc⟩ := c
  exact ⟨rfl, rfl, rfl, rfl, rfl, rfl, rfl⟩

/-- C7: after a row-returning query the rowcount is the `-1` "unknown"
sentinel and stays `-1` after all rows are fetched; after a delete that
removed `n` rows it equals `n`; and after a DDL statement following an
insert (which had set it to `1`) it resets to the backend's DDL
default instead of retaining the previous statement's count. -/
theorem rowcount_semantics (b : Backend) (c : Cursor) (ds : List Diag)
    (rs : List Row) (more : List StepResult) (n : Nat)
    (ho : c.closed = false) :
    ((c.execute b (.selectQ (⟨ds, some rs⟩ :: more))).2).rowcount = -1 ∧
    (((c.execute b (.selectQ (⟨ds, some rs⟩ :: more))).2).fetchall).2.rowcount = -1 ∧
    ((c.execute b (.deleteQ n)).2).rowcount = (n : Int) ∧
    ((c.execute b .insertQ).2).rowcount = 1 ∧
    (((c.execute b .insertQ).2).execute b .ddlQ).2.rowcount = b.ddlDefault := by
  obtain ⟨cl, pe, cu, me, rc, nc⟩ := c
  simp only at ho
  subst ho
  exact ⟨rfl, rfl, rfl, rfl, rfl⟩

/-- C7 witness: on the FreeTDS backend (DDL default `0`) with a fresh
cursor, one result row and a 3-row delete, the three rowcount rules
hold concretely. -/
theorem rowcount_semantics_witness :
    ((newCursor.execute ⟨0⟩ (.selectQ [⟨[], some [[.intV 1]]⟩])).2).rowcount = -1 ∧
    (((newCursor.execute ⟨0⟩ (.selectQ [⟨[], some [[.intV 1]]⟩])).2).fetchall).2.rowcount = -1 ∧
    ((newCursor.execute ⟨0⟩ (.deleteQ 3)).2).rowcount = (3 : Int) ∧
    ((newCursor.execute ⟨0⟩ .insertQ).2).rowcount = 1 ∧
    (((newCursor.execute ⟨0⟩ .insertQ).2).execute ⟨0⟩ .ddlQ).2.rowcount = (0 : Int) :=
  rowcount_semantics ⟨0⟩ newCursor [] [[.intV 1]] [] 3 rfl

/-- C9: on an open cursor whose current ordered result set has `rows`
remaining, `skip n` followed by `fetchone` returns the `(n+1)`-th of
those rows (`none` when fewer than `n+1` remain). -/
theorem skip_then_fetchone (c : Cursor) (rows : List Row) (n : Nat)
    (ho : c.closed = false) (hcur : c.current = some rows) :
    (((c.skip n).2).fetchone).1 = .ok rows[n]? := by
  obtain ⟨cl, pe, cu, me, rc, nc⟩ := c
  simp only at ho hcur
  subst ho
  subst hcur
  have hd := head?_drop_eq rows n
  cases hcase : rows.drop n with
  | nil =>
      rw [hcase] at hd
      simp only [List.head?] at hd
      simp [Cursor.skip, Cursor.fetchone, hcase, ← hd]
  | cons r rs =>
      rw [hcase] at hd
      simp only [List.head?] at hd
      simp [Cursor.skip, Cursor.fetchone, hcase, ← hd]

/-- C9 witness: the test scenario — rows 1..4 inserted in order and
selected ordered, the first fetch returns row 1, then `skip 2` and a
fetch return row 4. -/
theorem skip_then_fetchone_witness :
    (((⟨false, [], some [[.intV 2], [.intV 3], [.intV 4]], some [], -1, 2⟩ :
      Cursor).skip 2).2.fetchone).1 = .ok (some [.intV 4]) ∧
    ((⟨false, [], some [[.intV 1], [.intV 2], [.intV 3], [.intV 4]], some [], -1, 1⟩ :
      Cursor).fetchone).1 = .ok (some [.intV 1]) :=
  ⟨skip_then_fetchone _ [[.intV 2], [.intV 3], [.intV 4]] 2 rfl rfl, rfl⟩

/-- C10: a newly created cursor, before any statement has executed on
it, has `messages = none` — not the empty list (`none ≠ some []`); the
empty-list state arises after a statement step that produced no
diagnostics. -/
theorem messages_none_before_execute (b : Backend) (c : Cursor)
    (rows : Option (List Row)) (more : List StepResult)
    (ho : c.closed = false) :
    newCursor.messages = none ∧
    newCursor.messages ≠ some [] ∧
    ((c.execute b (.selectQ (⟨[], rows⟩ :: more))).2).messages = some [] := by
  obtain ⟨cl, pe, cu, me, rc, nc⟩ := c
  simp only at ho
  subst ho
  exact ⟨rfl, by simp [newCursor], rfl⟩

/-- C10 witness: a fresh cursor has `messages = none`; executing a
diagnostic-free select on it yields `messages = some []`. -/
theorem messages_none_before_execute_witness :
    newCursor.messages = none ∧
    newCursor.messages ≠ some [] ∧
    ((newCursor.execute ⟨-1⟩ (.selectQ [⟨[], some [[.intV 1]]⟩])).2).messages = some [] :=
  messages_none_before_execute ⟨-1⟩ newCursor (some [[.intV 1]]) [] rfl

/-- Modelled from the spec (ConnectionSession): the transactional state
of a connection — the rows already committed, and the working view that
includes changes made since the last commit. -/
structure Conn where
  committed : List Row
  work : List Row
  deriving DecidableEq, Repr

/-- Modelled from the spec: commit makes the working view durable. -/
def Conn.commit (c : Conn) : Conn := ⟨c.work, c.work⟩

/-- Modelled from the spec: rollback discards uncommitted changes,
restoring the committed state. -/
def Conn.rollback (c : Conn) : Conn := ⟨c.committed, c.committed⟩

/-- Modelled from the spec: a later query on the connection sees the
current working view. -/
def Conn.selectRows (c : Conn) : List Row := c.work

/-- Modelled from the spec: what a transactional scope body does —
inserts rows, or raises a failure part-way through. -/
inductive Action where
  | ins (r : Row)
  | raiseErr (e : Err)
  deriving DecidableEq, Repr

/-- Modelled from the spec: run the scope body — inserts extend the
working (uncommitted) view; a raised failure aborts the remaining
actions and surfaces the error. -/
def runActions : List Action → Conn → Conn × Option Err
  | [], c => (c, none)
  | .ins r :: rest, c => runActions rest ⟨c.committed, c.work ++ [r]⟩
  | .raiseErr e :: _, c => (c, some e)

/-- The rows the scope body inserts before any raised failure. -/
def scopedInserts : List Action → List Row
  | [] => []
  | .ins r :: rest => r :: scopedInserts rest
  | .raiseErr _ :: _ => []

/-- Modelled from the spec (ConnectionSession): scoped (with-block)
transaction use — entering the scope, running the body, and on exit
committing when the body completed normally or rolling back when it
raised, whichever exit path is taken. -/
def withScope (c : Conn) (as : List Action) : Conn × Option Err :=
  match runActions as c with
  | (c1, none) => (c1.commit, none)
  | (c1, some e) => (c1.rollback, some e)

theorem runActions_committed (as : List Action) (c : Conn) :
    (runActions as c).1.committed = c.committed := by
  induction as generalizing c with
  | nil => rfl
  | cons a rest ih =>
      cases a with
      | ins r => exact ih ⟨c.committed, c.work ++ [r]⟩
      | raiseErr e => rfl

theorem runActions_work_of_ok (as : List Action) (c : Conn)
    (h : (runActions as c).2 = none) :
    (runActions as c).1.work = c.work ++ scopedInserts as := by
  induction as generalizing c with
  | nil => simp [runActions, scopedInserts]
  | cons a rest ih =>
      cases a with
      | ins r =>
          simp only [runActions, scopedInserts] at h ⊢
          rw [ih ⟨c.committed, c.work ++ [r]⟩ h]
          simp
      | raiseErr e => exact absurd h (by simp [runActions])

/-- C5: a scoped transaction commits on normal exit and rolls back on
exit via a raised failure.  After a scope that completes normally, the
rows it inserted are visible to a later query (the working and
committed views both become the pre-scope work plus every scoped
insert); after a scope that raises mid-scope, the failure is surfaced
and only the rows committed before the scope remain visible.  Both
outcomes hold whichever exit path is taken. -/
theorem withScope_commit_or_rollback (c : Conn) (as : List Action)
    (c1 : Conn) (res : Option Err) (h : runActions as c = (c1, res)) :
    (res = none →
      withScope c as =
        (⟨c.work ++ scopedInserts as, c.work ++ scopedInserts as⟩, none)) ∧
    (∀ e, res = some e →
      withScope c as = (⟨c.committed, c.committed⟩, some e)) := by
  constructor
  · intro hres
    subst hres
    have hw : c1.work = c.work ++ scopedInserts as := by
      have := runActions_work_of_ok as c (by rw [h])
      rw [h] at this
      exact this
    unfold withScope
    rw [h]
    simp [Conn.commit, hw]
  · intro e hres
    subst hres
    have hc : c1.committed = c.committed := by
      have := runActions_committed as c
      rw [h] at this
      exact this
    unfold withScope
    rw [h]
    simp [Conn.rollback, hc]

/-- C5 witness: the two test scenarios — a scope inserting one row and
exiting normally commits it; a scope inserting a row and then raising
rolls the insert back, leaving only the previously committed row. -/
theorem withScope_commit_or_rollback_witness :
    withScope ⟨[], []⟩ [.ins [.intV 1]] = (⟨[[.intV 1]], [[.intV 1]]⟩, none) ∧
    withScope ⟨[[.intV 1]], [[.intV 1]]⟩ [.ins [.intV 2], .raiseErr .DataError] =
      (⟨[[.intV 1]], [[.intV 1]]⟩, some .DataError) := by
  constructor
  · exact (withScope_commit_or_rollback ⟨[], []⟩ [.ins [.intV 1]]
      ⟨[], [[.intV 1]]⟩ none rfl).1 rfl
  · exact (withScope_commit_or_rollback ⟨[[.intV 1]], [[.intV 1]]⟩
      [.ins [.intV 2], .raiseErr .DataError]
      ⟨[[.intV 1]], [[.intV 1], [.intV 2]]⟩ (some .DataError) rfl).2 .DataError rfl

/-- Modelled from the spec (OutputConverterRegistry): a conversion
function from the raw fetched payload to a host value. -/
def Conv : Type := List Nat → Value

/-- Modelled from the spec: the registry, a mutable mapping from native
SQL type code to conversion function, global to a connection. -/
structure Registry where
  entries : List (Nat × Conv)

/-- Modelled from the spec: `add_output_converter` —
last-registration-wins per type code; registering `None` for a code
removes any converter for it. -/
def add_output_converter (r : Registry) (code : Nat) (f : Option Conv) : Registry :=
  match f with
  | none => ⟨r.entries.filter (fun p => !(p.1 == code))⟩
  | some g => ⟨(code, g) :: r.entries.filter (fun p => !(p.1 == code))⟩

/-- Modelled from the spec: `remove_output_converter`. -/
def remove_output_converter (r : Registry) (code : Nat) : Registry :=
  ⟨r.entries.filter (fun p => !(p.1 == code))⟩

/-- Modelled from the spec: `clear_output_converters`. -/
def clear_output_converters (_r : Registry) : Registry := ⟨[]⟩

/-- Modelled from the spec: `get_output_converter` — the currently
registered function for the code, or `None` when none is. -/
def get_output_converter (r : Registry) (code : Nat) : Option Conv :=
  (r.entries.find? (fun p => p.1 == code)).map (fun p => p.2)

/-- Modelled from the spec (ResultSetReader): fetching a value of a
column whose native type code is `code` — a registered converter fully
replaces the decoded value, taking the raw payload; otherwise the
untransformed marshaled value is returned. -/
def fetchConverted (r : Registry) (code : Nat) (ty : SqlType) (buf : Buffer) : Value :=
  match get_output_converter r code with
  | some f => f buf.payload
  | none => decode ty buf

theorem get_after_filter_self (l : List (Nat × Conv)) (code : Nat) :
    get_output_converter ⟨l.filter (fun p => !(p.1 == code))⟩ code = none := by
  unfold get_output_converter
  rw [List.find?_eq_none.mpr]
  · rfl
  · intro x hx
    have := (List.mem_filter.mp hx).2
    simp only [Bool.not_eq_eq_eq_not, Bool.not_true] at this
    simp [this]

/-- C8: the output-converter registry is last-registration-wins per
native type code: after registering `A`, fetched values of that code
are `A`'s output; registering `B` for the same code replaces `A`;
registering `None`, removing the code, or clearing the registry each
restores the untransformed value; and `get_output_converter` returns
the currently registered function, or `None` when none is. -/
theorem output_converter_registry (r : Registry) (code : Nat) (A B : Conv)
    (ty : SqlType) (buf : Buffer) :
    get_output_converter (add_output_converter r code (some A)) code = some A ∧
    fetchConverted (add_output_converter r code (some A)) code ty buf =
      A buf.payload ∧
    get_output_converter
      (add_output_converter (add_output_converter r code (some A)) code (some B))
      code = some B ∧
    fetchConverted
      (add_output_converter (add_output_converter r code (some A)) code (some B))
      code ty buf = B buf.payload ∧
    fetchConverted (add_output_converter (add_output_converter r code (some A)) code none)
      code ty buf = decode ty buf ∧
    fetchConverted (remove_output_converter (add_output_converter r code (some A)) code)
      code ty buf = decode ty buf ∧
    fetchConverted (clear_output_converters r) code ty buf = decode ty buf ∧
    get_output_converter (clear_output_converters r) code = none ∧
    get_output_converter (remove_output_converter r code) code = none ∧
    get_output_converter (add_output_converter r code none) code = none := by
  have hA : get_output_converter (add_output_converter r code (some A)) code = some A := by
    simp [get_output_converter, add_output_converter, List.find?]
  have hB : get_output_converter
      (add_output_converter (add_output_converter r code (some A)) code (some B))
      code = some B := by
    simp [get_output_converter, add_output_converter, List.find?]
  have hnone1 : get_output_converter
      (add_output_converter (add_output_converter r code (some A)) code none) code = none :=
    get_after_filter_self _ code
  have hnone2 : get_output_converter
      (remove_output_converter (add_output_converter r code (some A)) code) code = none :=
    get_after_filter_self _ code
  refine ⟨hA, ?_, hB, ?_, ?_, ?_, rfl, rfl, get_after_filter_self _ code,
    get_after_filter_self _ code⟩
  · simp [fetchConverted, hA]
  · simp [fetchConverted, hB]
  · simp [fetchConverted, hnone1]
  · simp [fetchConverted, hnone2]

end Pyodbc
